import Mathlib

/-!
Verification development for the CSV Data Viewer parsing pipeline
(`src/lib/parser/normalize.ts` and `src/lib/parser/parseCsvFile.ts`).

Modelling choices:
* Text is modelled as `List Char` (`Str` below); JavaScript string
  operations (`trim`, `split`, `charCodeAt`, `slice`) become explicit
  recursions over character lists.
* Numeric values are modelled as exact rationals (`ℚ`).  IEEE-754
  rounding and overflow are not modelled; the literal `Infinity` is the
  only non-finite parse result in the model, and - exactly as in the
  source, where `Number.isFinite` filters it - it coerces to `none`.
* `undefined`/`null` are both rendered as `Option.none` where the source
  can produce them (`raw == null` catches both in the source).
-/

namespace CsvViewer

/-- Text as a list of characters. -/
abbrev Str := List Char

/-- The byte-order-marker character U+FEFF. -/
def bomChar : Char := '\uFEFF'

/-- The ECMAScript `WhiteSpace`/`LineTerminator` set recognised by
`String.prototype.trim` (which the source uses everywhere); note that it
contains U+FEFF. -/
def isJsWhitespace (c : Char) : Bool :=
  let n := c.toNat
  n = 9 || n = 10 || n = 11 || n = 12 || n = 13 || n = 32 || n = 160 ||
  n = 0x1680 || (0x2000 ≤ n && n ≤ 0x200A) || n = 0x2028 || n = 0x2029 ||
  n = 0x202F || n = 0x205F || n = 0x3000 || n = 0xFEFF

/-- JavaScript `String.prototype.trim`. -/
def jsTrim (s : Str) : Str :=
  (((s.dropWhile isJsWhitespace).reverse).dropWhile isJsWhitespace).reverse

/-- `line.trim() === ''`: the string is blank after trimming. -/
def isBlank (s : Str) : Bool := (jsTrim s).isEmpty

/-- `text.charCodeAt(0) === 0xfeff`. -/
def startsWithBom (s : Str) : Bool :=
  match s with
  | [] => false
  | c :: _ => c = bomChar

/-- `text.replace(/\r\n?/g, '\n')`: rewrite CR LF and bare CR to LF. -/
def replaceCR : Str → Str
  | [] => []
  | '\r' :: '\n' :: r2 => '\n' :: replaceCR r2
  | '\r' :: rest => '\n' :: replaceCR rest
  | c :: rest => c :: replaceCR rest

/-- `normalizeInput` from `normalize.ts`: strip a single leading BOM,
then unify line terminators. -/
def normalizeInput (text : Str) : Str :=
  replaceCR (if startsWithBom text then text.tail else text)

/-- JavaScript `String.prototype.split` with a one-character separator
(`"".split(c)` is `[""]`, hence the `[[]]` base case). -/
def splitOnChar (sep : Char) : Str → List Str
  | [] => [[]]
  | c :: rest =>
    let r := splitOnChar sep rest
    if c = sep then [] :: r else (c :: r.headD []) :: r.tail

/-- `lines.join('\n')`. -/
def joinLines : List Str → Str
  | [] => []
  | [l] => l
  | l :: ls => l ++ '\n' :: joinLines ls

/-- The `findIndex` scan of `splitMetaAndTests`: first line that is blank
after trimming and is followed by at least one later non-blank line
(`none` renders the source's `-1`). -/
def findSepIdx : List Str → Option Nat
  | [] => none
  | l :: ls =>
    if isBlank l && ls.any (fun c => !(isBlank c)) then some 0
    else (findSepIdx ls).map (· + 1)

/-- The line sequence the splitter works on: normalized text split at LF. -/
def linesOf (text : Str) : List Str := splitOnChar '\n' (normalizeInput text)

/-- The `metaLines` local of `splitMetaAndTests`. -/
def metaLinesFrom (lines : List Str) : List Str :=
  match findSepIdx lines with
  | some i => lines.take i
  | none => [lines.getD 0 [], lines.getD 1 []]

/-- The `testLines` local of `splitMetaAndTests`. -/
def testLinesFrom (lines : List Str) : List Str :=
  match findSepIdx lines with
  | some i => (lines.drop (i + 1)).filter (fun l => !(isBlank l))
  | none => lines.drop 2

/-- `"<fileName>: no blank separator line found; applied positional fallback split."` -/
def fallbackWarning (fileName : Str) : Str :=
  fileName ++ (": no blank separator line found; applied positional fallback split.").data

/-- `"<fileName>: metadata section has fewer than two rows."` -/
def shortMetaWarning (fileName : Str) : Str :=
  fileName ++ (": metadata section has fewer than two rows.").data

/-- Result record of `splitMetaAndTests`. -/
structure SplitResult where
  metaSectionText : Str
  testsSectionText : Str
  warnings : List Str
deriving DecidableEq, Repr

/-- `splitMetaAndTests`, factored over an already computed line list. -/
def splitFromLines (fileName : Str) (lines : List Str) : SplitResult :=
  let metaLines := metaLinesFrom lines
  let testLines := testLinesFrom lines
  let w1 : List Str :=
    match findSepIdx lines with
    | some _ => []
    | none => [fallbackWarning fileName]
  let w2 : List Str := if metaLines.length < 2 then [shortMetaWarning fileName] else []
  { metaSectionText := joinLines (metaLines.take 2)
    testsSectionText := joinLines testLines
    warnings := w1 ++ w2 }

/-- `splitMetaAndTests` from `normalize.ts`. -/
def splitMetaAndTests (fileName text : Str) : SplitResult :=
  splitFromLines fileName (linesOf text)

/-- Cells of one semicolon-delimited line. -/
def splitCells (line : Str) : List Str := splitOnChar ';' line

/-- Pad (with empty strings) or cut a cell list to the header count. -/
def padTo (n : Nat) (cells : List Str) : List Str :=
  cells.take n ++ List.replicate (n - cells.length) []

/-- One raw record: headers paired with the row's cells (missing trailing
cells become empty strings); columns under a blank header name are
dropped. -/
def recordOfLine (headers : List Str) (line : Str) : List (Str × Str) :=
  (headers.zip (padTo headers.length (splitCells line))).filter (fun p => !(isBlank p.1))

/-- A row is emitted only if some cell is non-blank after trimming. -/
def rowHasContent (line : Str) : Bool := (splitCells line).any (fun c => !(isBlank c))

/-- Modelled from the spec: the delimited record parser is the external
`csv-parse` / PapaParse library (configured in `parseCsvFile.ts`), whose
code is not part of this repository; this model follows the §4.3
contract: blank section text yields no records, the first line is the
header naming the fields, each later line becomes one record with
missing trailing cells as empty strings and extra cells dropped, columns
with blank header names are dropped, rows whose every cell trims to
empty are skipped, and no input ever fails.  Quoted fields are not
modelled: no claim depends on quoting. -/
def parseSemicolonRecords (sectionText : Str) : List (List (Str × Str)) :=
  if isBlank sectionText then []
  else
    match splitOnChar '\n' sectionText with
    | [] => []
    | header :: body =>
      (body.filter rowHasContent).map (recordOfLine (splitCells header))

/-- Object-update semantics: set `k` to `v`, replacing in place when the
key exists (JavaScript objects keep the first-insertion position). -/
def setAssoc (m : List (Str × Str)) (k v : Str) : List (Str × Str) :=
  if m.any (fun p => decide (p.1 = k)) then
    m.map (fun p => if p.1 = k then (k, v) else p)
  else m ++ [(k, v)]

/-- `sanitizeRawRecord` from `normalize.ts`: trim keys, drop blank keys,
trim values. -/
def sanitizeRawRecord (record : List (Str × Str)) : List (Str × Str) :=
  record.foldl
    (fun acc p =>
      let k := jsTrim p.1
      if k.isEmpty then acc else setAssoc acc k (jsTrim p.2))
    []

/-- Property access `record.Key` on a sanitized record (`none` renders
JavaScript `undefined`). -/
def getField (record : List (Str × Str)) (key : Str) : Option Str :=
  (record.find? (fun p => decide (p.1 = key))).map (fun p => p.2)

/-- Numeric value of a decimal digit. -/
def digitVal (c : Char) : Nat := c.toNat - 48

/-- All characters are ASCII decimal digits (vacuously true on `[]`). -/
def allDigits (s : Str) : Bool := s.all Char.isDigit

/-- Value of a string of decimal digits. -/
def decVal (s : Str) : Nat := s.foldl (fun a c => a * 10 + digitVal c) 0

/-- Value of a digit in radix ≤ 16 notation (99 marks a non-digit). -/
def radixDigitVal (c : Char) : Nat :=
  if c.isDigit then c.toNat - 48
  else if 'a' ≤ c && c ≤ 'f' then c.toNat - 87
  else if 'A' ≤ c && c ≤ 'F' then c.toNat - 55
  else 99

/-- The character is a digit of the given radix. -/
def isRadixDigit (base : Nat) (c : Char) : Bool := radixDigitVal c < base

/-- Value of a digit string in the given radix. -/
def radixVal (base : Nat) (s : Str) : Nat :=
  s.foldl (fun a c => a * base + radixDigitVal c) 0

/-- `0x` / `0o` / `0b` digit run: its value, or `none` when empty or
containing an invalid digit. -/
def ratOfRadix (base : Nat) (ds : Str) : Option ℚ :=
  if ds ≠ [] ∧ ds.all (isRadixDigit base) then some ((radixVal base ds : Nat) : ℚ)
  else none

/-- Split a string at the first character satisfying `p` (the second
component is `none` when no such character occurs). -/
def splitOnFirst (p : Char → Bool) : Str → Str × Option Str
  | [] => ([], none)
  | c :: rest =>
    if p c then ([], some rest)
    else
      let r := splitOnFirst p rest
      (c :: r.1, r.2)

/-- Mantissa of a decimal literal: digits, optionally with one decimal
point, at least one digit overall. -/
def parseMantissa (m : Str) : Option ℚ :=
  let ip := (splitOnFirst (fun c => c = '.') m).1
  match (splitOnFirst (fun c => c = '.') m).2 with
  | none => if ip ≠ [] ∧ allDigits ip then some ((decVal ip : Nat) : ℚ) else none
  | some fp =>
    if (ip ≠ [] ∨ fp ≠ []) ∧ allDigits ip ∧ allDigits fp then
      some (((decVal ip : Nat) : ℚ) + ((decVal fp : Nat) : ℚ) / (10 : ℚ) ^ fp.length)
    else none

/-- Exponent of a decimal literal: optional sign, at least one digit. -/
def parseSignedInt (e : Str) : Option Int :=
  match e with
  | [] => none
  | c :: d =>
    if c = '+' then (if d ≠ [] ∧ allDigits d then some ((decVal d : Nat) : Int) else none)
    else if c = '-' then (if d ≠ [] ∧ allDigits d then some (-((decVal d : Nat) : Int)) else none)
    else (if (c :: d) ≠ [] ∧ allDigits (c :: d) then some ((decVal (c :: d) : Nat) : Int) else none)

/-- Scale a mantissa by a power of ten. -/
def applyExp (m : ℚ) (ex : Int) : ℚ :=
  if 0 ≤ ex then m * (10 : ℚ) ^ ex.toNat else m / (10 : ℚ) ^ (-ex).toNat

/-- Unsigned decimal literal with optional exponent. -/
def parseDecLit (r : Str) : Option ℚ :=
  let mant := (splitOnFirst (fun c => c = 'e' || c = 'E') r).1
  let exOpt : Option Int :=
    match (splitOnFirst (fun c => c = 'e' || c = 'E') r).2 with
    | none => some 0
    | some e => parseSignedInt e
  match parseMantissa mant with
  | none => none
  | some m =>
    match exOpt with
    | none => none
    | some ex => some (applyExp m ex)

/-- Unsigned decimal: the literal `Infinity` parses to a non-finite
number in the source (so `Number.isFinite` rejects it); the model maps
it to `none` directly. -/
def parseUnsignedDec (r : Str) : Option ℚ :=
  if r = ("Infinity").data then none else parseDecLit r

/-- Optional leading sign, then unsigned decimal. -/
def parseSignedDec (t : Str) : Option ℚ :=
  match t with
  | [] => parseDecLit []
  | c :: r =>
    if c = '+' then parseUnsignedDec r
    else if c = '-' then (parseUnsignedDec r).map (fun q => -q)
    else parseUnsignedDec (c :: r)

/-- JavaScript `Number(t)` on a trimmed non-empty string, composed with
the `Number.isFinite` filter of `toNumberOrNull`: decimal notation with
optional sign, decimal point and exponent, plus `0x`/`0o`/`0b` radix
integer literals; `NaN` and infinite results are `none`. -/
def jsNumberFinite (t : Str) : Option ℚ :=
  match t with
  | c0 :: c1 :: ds =>
    if c0 = '0' then
      if c1 = 'x' || c1 = 'X' then ratOfRadix 16 ds
      else if c1 = 'o' || c1 = 'O' then ratOfRadix 8 ds
      else if c1 = 'b' || c1 = 'B' then ratOfRadix 2 ds
      else parseSignedDec (c0 :: c1 :: ds)
    else parseSignedDec (c0 :: c1 :: ds)
  | t => parseSignedDec t

/-- `toNumberOrNull` from `normalize.ts`. -/
def toNumberOrNull (raw : Option Str) : Option ℚ :=
  match raw with
  | none => none
  | some s =>
    let trimmed := jsTrim s
    if trimmed.isEmpty then none else jsNumberFinite trimmed

/-- `parseBooleanOrNull` from `normalize.ts` (ASCII lower-casing, which
covers the `"true"`/`"false"` comparisons it feeds). -/
def parseBooleanOrNull (raw : Option Str) : Option Bool :=
  match raw with
  | none => none
  | some s =>
    let normalized := (jsTrim s).map Char.toLower
    if normalized = ("true").data then some true
    else if normalized = ("false").data then some false
    else none

/-- `computeInLimit` from `normalize.ts` (the same `if` cascade:
`value === null`, `lower === null && upper === null`,
`lower !== null && value < lower`, `upper !== null && value > upper`,
otherwise `true`). -/
def computeInLimit (value lower upper : Option ℚ) : Option Bool :=
  match value with
  | none => none
  | some v =>
    if lower = none ∧ upper = none then none
    else if (match lower with | some l => decide (v < l) | none => false) then some false
    else if (match upper with | some u => decide (u < v) | none => false) then some false
    else some true

/-- `MetaData` from `normalize.ts`. -/
structure MetaData where
  serialNumber : Option Str
  result : Option Str
  detailResult : Option Str
  stationId : Option Str
  testName : Option Str
  testDefinitionFile : Option Str
  testVersion : Option Str
  testDefinitionVersion : Option Str
  testTimeSeconds : Option ℚ
  sitesNumber : Option ℚ
  date : Option Str
  time : Option Str
  serial1 : Option Str
  raw : List (Str × Str)
deriving DecidableEq

/-- `TestRow` from `normalize.ts`. -/
structure TestRow where
  status : Option Str
  tsId : Option Str
  tsName : Option Str
  siteId : Option Str
  siteSn : Option Str
  expectedRegex : Option Str
  lowerLimitRaw : Option Str
  upperLimitRaw : Option Str
  valueRaw : Option Str
  lowerLimit : Option ℚ
  upperLimit : Option ℚ
  value : Option ℚ
  unit : Option Str
  type : Option Str
  skipped : Option Bool
  passFail : Option Str
  testTimeRaw : Option Str
  testTime : Option ℚ
  isNumericValue : Bool
  hasAnyLimit : Bool
  inLimit : Option Bool
  raw : List (Str × Str)
deriving DecidableEq

/-- `ParsedCsvFile` from `normalize.ts`. -/
structure ParsedCsvFile where
  meta : MetaData
  tests : List TestRow
  warnings : List Str
deriving DecidableEq

/-- The metadata name-mapping of `normalizeParsedData`. -/
def mkMeta (metaRaw : List (Str × Str)) : MetaData :=
  { serialNumber := getField metaRaw ("SerialNumber").data
    result := getField metaRaw ("Result").data
    detailResult := getField metaRaw ("DetailResult").data
    stationId := getField metaRaw ("StationID").data
    testName := getField metaRaw ("TestName").data
    testDefinitionFile := getField metaRaw ("TestDefinitionFile").data
    testVersion := getField metaRaw ("TestVersion").data
    testDefinitionVersion := getField metaRaw ("TestDefinitionVersion").data
    testTimeSeconds := toNumberOrNull (getField metaRaw ("TestTime").data)
    sitesNumber := toNumberOrNull (getField metaRaw ("SitesNumber").data)
    date := getField metaRaw ("Date").data
    time := getField metaRaw ("Time").data
    serial1 := getField metaRaw ("Serial1").data
    raw := metaRaw }

/-- The per-row assembly of `normalizeParsedData` (the body of its final
`map`), on an already sanitized record. -/
def mkTestRow (raw : List (Str × Str)) : TestRow :=
  let lowerLimit := toNumberOrNull (getField raw ("LowerLimit").data)
  let upperLimit := toNumberOrNull (getField raw ("UpperLimit").data)
  let value := toNumberOrNull (getField raw ("Value").data)
  { status := getField raw ("Status").data
    tsId := getField raw ("TsId").data
    tsName := getField raw ("TsName").data
    siteId := getField raw ("SiteId").data
    siteSn := getField raw ("SiteSN").data
    expectedRegex := getField raw ("Expected/Regex").data
    lowerLimitRaw := getField raw ("LowerLimit").data
    upperLimitRaw := getField raw ("UpperLimit").data
    valueRaw := getField raw ("Value").data
    lowerLimit := lowerLimit
    upperLimit := upperLimit
    value := value
    unit := getField raw ("Unit").data
    type := getField raw ("Type").data
    skipped := parseBooleanOrNull (getField raw ("Skipped").data)
    passFail := getField raw ("PassFail").data
    testTimeRaw := getField raw ("TestTime").data
    testTime := toNumberOrNull (getField raw ("TestTime").data)
    isNumericValue := value.isSome
    hasAnyLimit := lowerLimit.isSome || upperLimit.isSome
    inLimit := computeInLimit value lowerLimit upperLimit
    raw := raw }

/-- `"<fileName>: test section is empty."` -/
def emptyTestsWarning (fileName : Str) : Str :=
  fileName ++ (": test section is empty.").data

/-- `"<fileName>: row <idx + 2> has PassFail=Fail with Status=Skipped."`
(`idx` is the 0-based index in the filtered record sequence; `+ 2` is
the 1-based position offset by the header row, as in the source's
`index + 2`). -/
def rowWarning (fileName : Str) (idx : Nat) : Str :=
  fileName ++ (": row ").data ++ (Nat.repr (idx + 2)).data ++
    (" has PassFail=Fail with Status=Skipped.").data

/-- The cross-field check `raw.PassFail === 'Fail' && raw.Status === 'Skipped'`. -/
def failSkippedFlag (record : List (Str × Str)) : Bool :=
  decide (getField record ("PassFail").data = some (("Fail").data)) &&
  decide (getField record ("Status").data = some (("Skipped").data))

/-- The `map` of `normalizeParsedData` with its warning-pushing side
effect, rendered as explicit accumulation: rows and the row warnings, in
row order. -/
def assembleRows (fileName : Str) : Nat → List (List (Str × Str)) → List TestRow × List Str
  | _, [] => ([], [])
  | i, r :: rs =>
    let rest := assembleRows fileName (i + 1) rs
    (mkTestRow r :: rest.1,
     (if failSkippedFlag r then [rowWarning fileName i] else []) ++ rest.2)

/-- `Object.values(record).some(v => v.length > 0)`. -/
def hasNonemptyValue (record : List (Str × Str)) : Bool :=
  record.any (fun p => !(p.2.isEmpty))

/-- `normalizeParsedData` from `normalize.ts`. -/
def normalizeParsedData (fileName : Str) (metaRecord : Option (List (Str × Str)))
    (testRecords : List (List (Str × Str))) (initialWarnings : List Str) : ParsedCsvFile :=
  let metaRaw := sanitizeRawRecord (metaRecord.getD [])
  let meta := mkMeta metaRaw
  if testRecords.isEmpty then
    { meta := meta, tests := [], warnings := initialWarnings ++ [emptyTestsWarning fileName] }
  else
    let filtered := (testRecords.map sanitizeRawRecord).filter hasNonemptyValue
    let rowsAndWarnings := assembleRows fileName 0 filtered
    { meta := meta, tests := rowsAndWarnings.1
      warnings := initialWarnings ++ rowsAndWarnings.2 }

/-- `parseCsvText`, factored over an already computed line list. -/
def parseFromLines (fileName : Str) (lines : List Str) : ParsedCsvFile :=
  let s := splitFromLines fileName lines
  normalizeParsedData fileName (parseSemicolonRecords s.metaSectionText).head?
    (parseSemicolonRecords s.testsSectionText) s.warnings

/-- `parseCsvText` from `parseCsvFile.ts`. -/
def parseCsvText (fileName text : Str) : ParsedCsvFile :=
  parseFromLines fileName (linesOf text)

/-! Specification-side definitions, written from the spec's words, to be
compared with the definitions above. -/

/-- The limit evaluator as the specification words it: `null` when the
value is `null` or both bounds are, otherwise `true` iff the value is
inside the present bounds, inclusively. -/
def specInLimit (value lower upper : Option ℚ) : Option Bool :=
  match value with
  | none => none
  | some v =>
    if lower = none ∧ upper = none then none
    else
      some ((match lower with | none => true | some l => decide (l ≤ v)) &&
            (match upper with | none => true | some u => decide (v ≤ u)))

/-- Line `i` qualifies as the separator: blank after trimming, and
followed by at least one later non-blank line. -/
def isSeparatorAt (lines : List Str) (i : Nat) : Prop :=
  i < lines.length ∧ isBlank (lines.getD i []) = true ∧
    ((lines.drop (i + 1)).any (fun c => !(isBlank c))) = true

instance (lines : List Str) (i : Nat) : Decidable (isSeparatorAt lines i) := by
  unfold isSeparatorAt; infer_instance

/-- Number of lines of a text, in the sense of the splitter. -/
def countLines (s : Str) : Nat := (splitOnChar '\n' s).length

/-- Optional leading sign, then an unsigned decimal literal and nothing
else — the grammar the claim's words allow. -/
def parseSignedDecOnly (t : Str) : Option ℚ :=
  match t with
  | [] => parseDecLit []
  | c :: r =>
    if c = '+' then parseDecLit r
    else if c = '-' then (parseDecLit r).map (fun q => -q)
    else parseDecLit (c :: r)

/-- The coercion as the claim words it: base-10 decimal notation only
(optional sign, decimal point, exponent), `null` on absent or blank
input. -/
def decimalNumberOrNull (raw : Option Str) : Option ℚ :=
  match raw with
  | none => none
  | some s =>
    let trimmed := jsTrim s
    if trimmed.isEmpty then none else parseSignedDecOnly trimmed

/-- Pair each element with its index, counting from `i`. -/
def enumFromIdx {α : Type} (i : Nat) : List α → List (Nat × α)
  | [] => []
  | a :: as => (i, a) :: enumFromIdx (i + 1) as

/-- The row warnings as the specification words them: one warning per
record with `PassFail=Fail` and `Status=Skipped`, at that record's
position, and no other. -/
def rowWarningsFrom (fileName : Str) (records : List (List (Str × Str))) : List Str :=
  (enumFromIdx 0 records).filterMap
    (fun p => if failSkippedFlag p.2 then some (rowWarning fileName p.1) else none)

/-- Number of byte-order-marker characters in a text. -/
def bomCount (s : Str) : Nat := s.count bomChar

/-! Helper lemmas. -/

theorem computeInLimit_eq_spec (value lower upper : Option ℚ) :
    computeInLimit value lower upper = specInLimit value lower upper := by
  cases value with
  | none => rfl
  | some v =>
    cases lower with
    | none =>
      cases upper with
      | none => simp [computeInLimit, specInLimit]
      | some u =>
        simp only [computeInLimit, specInLimit]
        by_cases h : u < v
        · simp [h, not_le.mpr h]
        · simp [h, not_lt.mp h]
    | some l =>
      cases upper with
      | none =>
        simp only [computeInLimit, specInLimit]
        by_cases h : v < l
        · simp [h, not_le.mpr h]
        · simp [h, not_lt.mp h]
      | some u =>
        simp only [computeInLimit, specInLimit]
        by_cases h : v < l
        · simp [h, not_le.mpr h]
        · by_cases h2 : u < v
          · simp [h, h2, not_le.mpr h2]
          · simp [h, h2, not_lt.mp h, not_lt.mp h2]

theorem assembleRows_fst (fileName : Str) :
    ∀ (i : Nat) (l : List (List (Str × Str))),
      (assembleRows fileName i l).1 = l.map mkTestRow
  | _, [] => rfl
  | i, r :: rs => by
    simp [assembleRows, assembleRows_fst fileName (i + 1) rs]

theorem assembleRows_snd (fileName : Str) :
    ∀ (i : Nat) (l : List (List (Str × Str))),
      (assembleRows fileName i l).2 =
        (enumFromIdx i l).filterMap
          (fun p => if failSkippedFlag p.2 then some (rowWarning fileName p.1) else none)
  | _, [] => rfl
  | i, r :: rs => by
    simp only [assembleRows, enumFromIdx, List.filterMap_cons]
    rw [assembleRows_snd fileName (i + 1) rs]
    by_cases h : failSkippedFlag r <;> simp [h]

theorem normalizeParsedData_tests (fileName : Str) (metaRecord : Option (List (Str × Str)))
    (testRecords : List (List (Str × Str))) (ws : List Str) :
    (normalizeParsedData fileName metaRecord testRecords ws).tests =
      ((testRecords.map sanitizeRawRecord).filter hasNonemptyValue).map mkTestRow := by
  cases testRecords with
  | nil => rfl
  | cons r rs => simp [normalizeParsedData, assembleRows_fst]

theorem normalizeParsedData_warnings (fileName : Str) (metaRecord : Option (List (Str × Str)))
    (testRecords : List (List (Str × Str))) (ws : List Str) :
    (normalizeParsedData fileName metaRecord testRecords ws).warnings =
      ws ++ (if testRecords.isEmpty then [emptyTestsWarning fileName]
             else rowWarningsFrom fileName
               ((testRecords.map sanitizeRawRecord).filter hasNonemptyValue)) := by
  cases testRecords with
  | nil => rfl
  | cons r rs => simp [normalizeParsedData, assembleRows_snd, rowWarningsFrom]

theorem isSeparatorAt_cons_zero (l : Str) (ls : List Str) :
    isSeparatorAt (l :: ls) 0 ↔
      (isBlank l = true ∧ (ls.any (fun c => !(isBlank c))) = true) := by
  unfold isSeparatorAt
  simp

theorem isSeparatorAt_cons_succ (l : Str) (ls : List Str) (i : Nat) :
    isSeparatorAt (l :: ls) (i + 1) ↔ isSeparatorAt ls i := by
  unfold isSeparatorAt
  simp [Nat.succ_lt_succ_iff]

theorem findSepIdx_eq_some : ∀ (lines : List Str) (i : Nat),
    isSeparatorAt lines i → (∀ k, k < i → ¬ isSeparatorAt lines k) →
    findSepIdx lines = some i
  | [], i, h, _ => absurd h.1 (by simp)
  | l :: ls, 0, h, _ => by
    obtain ⟨hb, ha⟩ := (isSeparatorAt_cons_zero l ls).mp h
    simp [findSepIdx, hb, ha]
  | l :: ls, i + 1, h, hmin => by
    have h0 : ¬ isSeparatorAt (l :: ls) 0 := hmin 0 (Nat.succ_pos i)
    have hc : ¬ (isBlank l && ls.any (fun c => !(isBlank c))) = true := by
      intro hcc
      simp only [Bool.and_eq_true] at hcc
      exact h0 ((isSeparatorAt_cons_zero l ls).mpr hcc)
    have hshift : isSeparatorAt ls i := (isSeparatorAt_cons_succ l ls i).mp h
    have hminshift : ∀ k, k < i → ¬ isSeparatorAt ls k := fun k hk hks =>
      hmin (k + 1) (Nat.succ_lt_succ hk) ((isSeparatorAt_cons_succ l ls k).mpr hks)
    simp only [findSepIdx]
    rw [if_neg hc, findSepIdx_eq_some ls i hshift hminshift]
    rfl

theorem findSepIdx_eq_none : ∀ (lines : List Str),
    (∀ i, i < lines.length → ¬ isSeparatorAt lines i) → findSepIdx lines = none
  | [], _ => rfl
  | l :: ls, hmin => by
    have h0 : ¬ isSeparatorAt (l :: ls) 0 := hmin 0 (Nat.succ_pos _)
    have hc : ¬ (isBlank l && ls.any (fun c => !(isBlank c))) = true := by
      intro hcc
      simp only [Bool.and_eq_true] at hcc
      exact h0 ((isSeparatorAt_cons_zero l ls).mpr hcc)
    have hshift : ∀ i, i < ls.length → ¬ isSeparatorAt ls i := fun i hi hsep =>
      hmin (i + 1) (Nat.succ_lt_succ hi) ((isSeparatorAt_cons_succ l ls i).mpr hsep)
    simp only [findSepIdx]
    rw [if_neg hc, findSepIdx_eq_none ls hshift]
    rfl

theorem splitOnChar_ne_nil (sep : Char) : ∀ s : Str, splitOnChar sep s ≠ []
  | [] => by simp [splitOnChar]
  | c :: rest => by
    simp only [splitOnChar]
    split <;> simp

theorem splitOnChar_not_mem (sep : Char) (s : Str) : ∀ l : Str, l ∈ splitOnChar sep s → sep ∉ l := by
  induction s with
  | nil =>
    intro l hl
    simp [splitOnChar] at hl
    simp [hl]
  | cons c rest ih =>
    intro l hl
    obtain ⟨h0, t0, hsp⟩ : ∃ h0 t0, splitOnChar sep rest = h0 :: t0 := by
      rcases hr : splitOnChar sep rest with _ | ⟨a, b⟩
      · exact absurd hr (splitOnChar_ne_nil sep rest)
      · exact ⟨a, b, rfl⟩
    have ih0 : sep ∉ h0 := ih h0 (by rw [hsp]; exact List.mem_cons_self _ _)
    by_cases hc : c = sep
    · simp only [splitOnChar, hsp, if_pos hc] at hl
      rcases List.mem_cons.mp hl with rfl | hl2
      · simp
      · exact ih l (by rw [hsp]; exact hl2)
    · simp only [splitOnChar, hsp, if_neg hc, List.headD_cons, List.tail_cons] at hl
      rcases List.mem_cons.mp hl with rfl | hl2
      · intro hmem
        rcases List.mem_cons.mp hmem with h | hmem2
        · exact hc h.symm
        · exact ih0 hmem2
      · exact ih l (by rw [hsp]; exact List.mem_cons_of_mem h0 hl2)

theorem splitOnChar_append_cons (sep : Char) (b : Str) :
    ∀ a : Str, sep ∉ a → splitOnChar sep (a ++ sep :: b) = a :: splitOnChar sep b
  | [], _ => by simp [splitOnChar]
  | c :: a', ha => by
    have hc : ¬ c = sep := fun h => ha (by rw [h]; exact List.mem_cons_self _ _)
    have ha' : sep ∉ a' := fun h => ha (List.mem_cons_of_mem c h)
    have ih := splitOnChar_append_cons sep b a' ha'
    simp only [List.cons_append, List.append_eq, splitOnChar, ih, if_neg hc,
      List.headD_cons, List.tail_cons]

theorem splitOnChar_eq_single (sep : Char) : ∀ b : Str, sep ∉ b → splitOnChar sep b = [b]
  | [], _ => rfl
  | c :: b', hb => by
    have hc : ¬ c = sep := fun h => hb (by rw [h]; exact List.mem_cons_self _ _)
    have hb' : sep ∉ b' := fun h => hb (List.mem_cons_of_mem c h)
    simp [splitOnChar, splitOnChar_eq_single sep b' hb', if_neg hc]

theorem getD_mem_or_default {α : Type} (L : List α) (n : Nat) (d : α) :
    L.getD n d ∈ L ∨ L.getD n d = d := by
  rw [List.getD_eq_getElem?_getD]
  cases h : L[n]? with
  | none => right; simp
  | some a =>
    left
    simp only [Option.getD_some]
    exact List.getElem?_mem h

theorem metaLines_mem_or_nil (lines : List Str) (l : Str)
    (hl : l ∈ metaLinesFrom lines) : l ∈ lines ∨ l = [] := by
  unfold metaLinesFrom at hl
  cases h : findSepIdx lines with
  | some i =>
    rw [h] at hl
    exact Or.inl (List.take_subset i lines hl)
  | none =>
    rw [h] at hl
    rcases List.mem_cons.mp hl with rfl | hl2
    · exact getD_mem_or_default lines 0 []
    · have hl3 : l = lines.getD 1 [] := by simpa using hl2
      rw [hl3]
      exact getD_mem_or_default lines 1 []

theorem mem_metaLines_no_newline (text : Str) (l : Str)
    (hl : l ∈ metaLinesFrom (linesOf text)) : '\n' ∉ l := by
  rcases metaLines_mem_or_nil (linesOf text) l hl with h | rfl
  · exact splitOnChar_not_mem '\n' (normalizeInput text) l h
  · simp

theorem parseUnsignedDec_of_decLit (r : Str) (q : ℚ) (h : parseDecLit r = some q) :
    parseUnsignedDec r = some q := by
  unfold parseUnsignedDec
  by_cases hr : r = ("Infinity").data
  · subst hr
    rw [show parseDecLit (("Infinity").data) = none from by decide] at h
    cases h
  · rw [if_neg hr]; exact h

theorem parseSignedDec_of_decOnly (t : Str) (q : ℚ) (h : parseSignedDecOnly t = some q) :
    parseSignedDec t = some q := by
  cases t with
  | nil => exact h
  | cons c r =>
    simp only [parseSignedDec, parseSignedDecOnly] at h ⊢
    by_cases hp : c = '+'
    · rw [if_pos hp] at h ⊢; exact parseUnsignedDec_of_decLit r q h
    · by_cases hm : c = '-'
      · rw [if_neg hp, if_pos hm] at h ⊢
        rcases Option.map_eq_some'.mp h with ⟨q', hq', rfl⟩
        rw [parseUnsignedDec_of_decLit r q' hq']
        rfl
      · rw [if_neg hp, if_neg hm] at h ⊢; exact parseUnsignedDec_of_decLit _ q h

theorem parseDecLit_bad_second (c1 : Char) (ds : Str)
    (hd : c1.isDigit = false) (he : c1 ≠ 'e') (hE : c1 ≠ 'E') (hdot : c1 ≠ '.') :
    parseDecLit ('0' :: c1 :: ds) = none := by
  have hpe : (decide (c1 = 'e') || decide (c1 = 'E')) = false := by
    simp [he, hE]
  have hpd : (decide (c1 = '.')) = false := by simp [hdot]
  have h1 : splitOnFirst (fun c => c = 'e' || c = 'E') ('0' :: c1 :: ds) =
      ('0' :: c1 :: (splitOnFirst (fun c => c = 'e' || c = 'E') ds).1,
       (splitOnFirst (fun c => c = 'e' || c = 'E') ds).2) := by
    simp [splitOnFirst, hpe]
  have h2 : ∀ m : Str, parseMantissa ('0' :: c1 :: m) = none := by
    intro m
    have h3 : splitOnFirst (fun c => c = '.') ('0' :: c1 :: m) =
        ('0' :: c1 :: (splitOnFirst (fun c => c = '.') m).1,
         (splitOnFirst (fun c => c = '.') m).2) := by
      simp [splitOnFirst, hpd]
    have hall : allDigits ('0' :: c1 :: (splitOnFirst (fun c => c = '.') m).1) = false := by
      simp [allDigits, hd]
    unfold parseMantissa
    rw [h3]
    cases hsp : (splitOnFirst (fun c => c = '.') m).2 with
    | none => simp [hall]
    | some fp => simp [hall]
  unfold parseDecLit
  rw [h1]
  simp only [h2]

theorem jsNumberFinite_of_decOnly (t : Str) (q : ℚ) (h : parseSignedDecOnly t = some q) :
    jsNumberFinite t = some q := by
  rcases t with _ | ⟨c0, _ | ⟨c1, ds⟩⟩
  · exact parseSignedDec_of_decOnly [] q h
  · exact parseSignedDec_of_decOnly [c0] q h
  · by_cases h0 : c0 = '0'
    · subst h0
      have hdec : c1.isDigit = false → c1 ≠ 'e' → c1 ≠ 'E' → c1 ≠ '.' → False := by
        intro hcd hce hcE hcdot
        have hbad : parseDecLit ('0' :: c1 :: ds) = none :=
          parseDecLit_bad_second c1 ds hcd hce hcE hcdot
        have h' : parseSignedDecOnly ('0' :: c1 :: ds) = parseDecLit ('0' :: c1 :: ds) := by
          simp only [parseSignedDecOnly]
          rw [if_neg (by decide), if_neg (by decide)]
        rw [h', hbad] at h
        cases h
      simp only [jsNumberFinite, if_true]
      by_cases hx : (c1 = 'x' || c1 = 'X') = true
      · exfalso
        have hx2 : c1 = 'x' ∨ c1 = 'X' := by simpa using hx
        rcases hx2 with rfl | rfl
        · exact hdec (by decide) (by decide) (by decide) (by decide)
        · exact hdec (by decide) (by decide) (by decide) (by decide)
      · rw [if_neg hx]
        by_cases ho : (c1 = 'o' || c1 = 'O') = true
        · exfalso
          have ho2 : c1 = 'o' ∨ c1 = 'O' := by simpa using ho
          rcases ho2 with rfl | rfl
          · exact hdec (by decide) (by decide) (by decide) (by decide)
          · exact hdec (by decide) (by decide) (by decide) (by decide)
        · rw [if_neg ho]
          by_cases hbb : (c1 = 'b' || c1 = 'B') = true
          · exfalso
            have hb2 : c1 = 'b' ∨ c1 = 'B' := by simpa using hbb
            rcases hb2 with rfl | rfl
            · exact hdec (by decide) (by decide) (by decide) (by decide)
            · exact hdec (by decide) (by decide) (by decide) (by decide)
          · rw [if_neg hbb]
            exact parseSignedDec_of_decOnly _ q h
    · simp only [jsNumberFinite]
      rw [if_neg h0]
      exact parseSignedDec_of_decOnly _ q h

theorem jsTrim_bom_cons (s : Str) : jsTrim (bomChar :: s) = jsTrim s := by
  simp [jsTrim, List.dropWhile_cons, show isJsWhitespace bomChar = true from by decide]

theorem isBlank_bom_cons (s : Str) : isBlank (bomChar :: s) = isBlank s := by
  simp [isBlank, jsTrim_bom_cons]

theorem replaceCR_bom_cons (s : Str) : replaceCR (bomChar :: s) = bomChar :: replaceCR s := by
  cases s with
  | nil => rfl
  | cons c2 r2 => rfl

theorem splitOnChar_cons_ne (sep c : Char) (h : ¬ c = sep) (s : Str) :
    splitOnChar sep (c :: s) =
      (c :: (splitOnChar sep s).headD []) :: (splitOnChar sep s).tail := by
  simp [splitOnChar, h]

theorem findSepIdx_bom (l0 : Str) (rest : List Str) :
    findSepIdx ((bomChar :: l0) :: rest) = findSepIdx (l0 :: rest) := by
  simp [findSepIdx, isBlank_bom_cons]

theorem joinLines_cons_head (c : Char) (a : Str) (ls : List Str) :
    joinLines ((c :: a) :: ls) = c :: joinLines (a :: ls) := by
  cases ls <;> rfl

theorem padTo_succ (n : Nat) (cells : List Str) :
    padTo (n + 1) cells = cells.headD [] :: padTo n cells.tail := by
  cases cells with
  | nil => simp [padTo, List.replicate_succ]
  | cons c cs => simp [padTo, List.take_succ_cons, Nat.succ_sub_succ]

theorem sanitize_head_key_trim (k1 k2 v : Str) (R : List (Str × Str))
    (hk : jsTrim k1 = jsTrim k2) :
    sanitizeRawRecord ((k1, v) :: R) = sanitizeRawRecord ((k2, v) :: R) := by
  simp only [sanitizeRawRecord, List.foldl_cons, hk]

theorem replaceCR_count_bom (s : Str) : (replaceCR s).count bomChar = s.count bomChar := by
  have hbn : (bomChar == '\n') = false := by decide
  have hbr : (bomChar == '\r') = false := by decide
  have hn : ¬('\n' = bomChar) := by decide
  have hr : ¬('\r' = bomChar) := by decide
  induction s using replaceCR.induct with
  | case1 => rfl
  | case2 r2 ih => simp [replaceCR, List.count_cons, hbn, hbr, hn, hr, ih]
  | case3 rest h ih => simp [replaceCR, h, List.count_cons, hbn, hbr, hn, hr, ih]
  | case4 c rest h hne ih => simp [replaceCR, hne, List.count_cons, ih]

theorem recordOfLine_bom_sanitize (c0 : Str) (cs0 : List Str) (line : Str) :
    sanitizeRawRecord (recordOfLine ((bomChar :: c0) :: cs0) line) =
      sanitizeRawRecord (recordOfLine (c0 :: cs0) line) := by
  unfold recordOfLine
  simp only [List.length_cons, padTo_succ, List.zip_cons_cons, List.filter_cons,
    isBlank_bom_cons]
  by_cases hbl : isBlank c0 = true
  · simp [hbl]
  · simp only [Bool.not_eq_true] at hbl
    simp only [hbl, Bool.not_false, if_true]
    exact sanitize_head_key_trim _ _ _ _ (jsTrim_bom_cons c0)

theorem records_bom_head_sanitize (m : Str) :
    sanitizeRawRecord (((parseSemicolonRecords (bomChar :: m)).head?).getD []) =
      sanitizeRawRecord (((parseSemicolonRecords m).head?).getD []) := by
  by_cases hb : isBlank m = true
  · have hb' : isBlank (bomChar :: m) = true := by rw [isBlank_bom_cons]; exact hb
    unfold parseSemicolonRecords
    rw [if_pos hb', if_pos hb]
  · have hb' : ¬ isBlank (bomChar :: m) = true := by rw [isBlank_bom_cons]; exact hb
    obtain ⟨h0, t0, hsp⟩ : ∃ h0 t0, splitOnChar '\n' m = h0 :: t0 := by
      rcases hr : splitOnChar '\n' m with _ | ⟨a, b⟩
      · exact absurd hr (splitOnChar_ne_nil '\n' m)
      · exact ⟨a, b, rfl⟩
    have hsp' : splitOnChar '\n' (bomChar :: m) = (bomChar :: h0) :: t0 := by
      rw [splitOnChar_cons_ne '\n' bomChar (by decide) m, hsp]
      simp
    obtain ⟨c0, cs0, hsc⟩ : ∃ c0 cs0, splitCells h0 = c0 :: cs0 := by
      rcases hr : splitCells h0 with _ | ⟨a, b⟩
      · exact absurd hr (splitOnChar_ne_nil ';' h0)
      · exact ⟨a, b, rfl⟩
    have hsc' : splitCells (bomChar :: h0) = (bomChar :: c0) :: cs0 := by
      unfold splitCells
      rw [splitOnChar_cons_ne ';' bomChar (by decide) h0]
      unfold splitCells at hsc
      rw [hsc]
      simp
    unfold parseSemicolonRecords
    rw [if_neg hb', if_neg hb, hsp, hsp']
    show sanitizeRawRecord
        ((List.map (recordOfLine (splitCells (bomChar :: h0)))
          (List.filter rowHasContent t0)).head?.getD []) =
      sanitizeRawRecord
        ((List.map (recordOfLine (splitCells h0))
          (List.filter rowHasContent t0)).head?.getD [])
    rw [hsc, hsc']
    rw [List.head?_map, List.head?_map]
    cases hfc : (t0.filter rowHasContent).head? with
    | none => rfl
    | some line =>
      simp only [Option.map_some', Option.getD_some]
      exact recordOfLine_bom_sanitize c0 cs0 line

theorem normalizeParsedData_meta_congr (fileName : Str)
    (r1 r2 : Option (List (Str × Str))) (T : List (List (Str × Str))) (W : List Str)
    (h : sanitizeRawRecord (r1.getD []) = sanitizeRawRecord (r2.getD [])) :
    normalizeParsedData fileName r1 T W = normalizeParsedData fileName r2 T W := by
  unfold normalizeParsedData
  rw [h]

theorem splitFromLines_metaSectionText (fileName : Str) (lines : List Str) :
    (splitFromLines fileName lines).metaSectionText =
      joinLines ((metaLinesFrom lines).take 2) := rfl

theorem splitFromLines_testsSectionText (fileName : Str) (lines : List Str) :
    (splitFromLines fileName lines).testsSectionText = joinLines (testLinesFrom lines) := rfl

theorem splitFromLines_warnings_eq (fileName : Str) (lines : List Str) :
    (splitFromLines fileName lines).warnings =
      (match findSepIdx lines with
       | some _ => ([] : List Str)
       | none => [fallbackWarning fileName]) ++
      (if (metaLinesFrom lines).length < 2 then [shortMetaWarning fileName] else []) := rfl

theorem parseFromLines_bom (fileName l0 : Str) (rest : List Str) :
    parseFromLines fileName ((bomChar :: l0) :: rest) =
      parseFromLines fileName (l0 :: rest) := by
  have hfind := findSepIdx_bom l0 rest
  cases hIdx : findSepIdx (l0 :: rest) with
  | some i =>
    rw [hIdx] at hfind
    cases i with
    | zero =>
      have hsplit : splitFromLines fileName ((bomChar :: l0) :: rest) =
          splitFromLines fileName (l0 :: rest) := by
        unfold splitFromLines metaLinesFrom testLinesFrom
        rw [hfind, hIdx]
        rfl
      simp only [parseFromLines]
      rw [hsplit]
    | succ j =>
      have hm1 : metaLinesFrom ((bomChar :: l0) :: rest) = (bomChar :: l0) :: rest.take j := by
        unfold metaLinesFrom
        rw [hfind]
        rfl
      have hm2 : metaLinesFrom (l0 :: rest) = l0 :: rest.take j := by
        unfold metaLinesFrom
        rw [hIdx]
        rfl
      have hts : (splitFromLines fileName ((bomChar :: l0) :: rest)).testsSectionText =
          (splitFromLines fileName (l0 :: rest)).testsSectionText := by
        rw [splitFromLines_testsSectionText, splitFromLines_testsSectionText]
        unfold testLinesFrom
        rw [hfind, hIdx]
        rfl
      have hw : (splitFromLines fileName ((bomChar :: l0) :: rest)).warnings =
          (splitFromLines fileName (l0 :: rest)).warnings := by
        rw [splitFromLines_warnings_eq, splitFromLines_warnings_eq, hfind, hIdx, hm1, hm2]
        simp
      have hms : (splitFromLines fileName ((bomChar :: l0) :: rest)).metaSectionText =
          bomChar :: (splitFromLines fileName (l0 :: rest)).metaSectionText := by
        rw [splitFromLines_metaSectionText, splitFromLines_metaSectionText, hm1, hm2]
        cases hX : rest.take j with
        | nil => rfl
        | cons b xs => rfl
      simp only [parseFromLines]
      rw [hts, hw, hms]
      exact normalizeParsedData_meta_congr fileName _ _ _ _
        (records_bom_head_sanitize (splitFromLines fileName (l0 :: rest)).metaSectionText)
  | none =>
    rw [hIdx] at hfind
    have hm1 : metaLinesFrom ((bomChar :: l0) :: rest) =
        [bomChar :: l0, rest.getD 0 []] := by
      unfold metaLinesFrom
      rw [hfind]
      simp
    have hm2 : metaLinesFrom (l0 :: rest) = [l0, rest.getD 0 []] := by
      unfold metaLinesFrom
      rw [hIdx]
      simp
    have hts : (splitFromLines fileName ((bomChar :: l0) :: rest)).testsSectionText =
        (splitFromLines fileName (l0 :: rest)).testsSectionText := by
      rw [splitFromLines_testsSectionText, splitFromLines_testsSectionText]
      unfold testLinesFrom
      rw [hfind, hIdx]
      rfl
    have hw : (splitFromLines fileName ((bomChar :: l0) :: rest)).warnings =
        (splitFromLines fileName (l0 :: rest)).warnings := by
      rw [splitFromLines_warnings_eq, splitFromLines_warnings_eq, hfind, hIdx, hm1, hm2]
      simp
    have hms : (splitFromLines fileName ((bomChar :: l0) :: rest)).metaSectionText =
        bomChar :: (splitFromLines fileName (l0 :: rest)).metaSectionText := by
      rw [splitFromLines_metaSectionText, splitFromLines_metaSectionText, hm1, hm2]
      rfl
    simp only [parseFromLines]
    rw [hts, hw, hms]
    exact normalizeParsedData_meta_congr fileName _ _ _ _
      (records_bom_head_sanitize (splitFromLines fileName (l0 :: rest)).metaSectionText)

/-! Claim theorems. -/

/-- Claim C1: for every value, lower and upper bound, the limit
evaluator returns `none` when the value is `none` or both bounds are
`none`; otherwise it returns `some false` when a present bound is
strictly violated and `some true` otherwise, with inclusive boundaries —
that is, `computeInLimit` coincides with the specification-side
`specInLimit`. -/
theorem claim1_limit_evaluator (value lower upper : Option ℚ) :
    computeInLimit value lower upper = specInLimit value lower upper :=
  computeInLimit_eq_spec value lower upper

/-- Claim C2: every `TestRow` assembled by `normalizeParsedData`
satisfies the invariants: `isNumericValue` iff the value parsed,
`hasAnyLimit` iff some bound parsed, and `inLimit` follows the
specification's limit policy applied to the row's own parsed fields. -/
theorem claim2_testrow_invariants (fileName : Str) (metaRecord : Option (List (Str × Str)))
    (testRecords : List (List (Str × Str))) (ws : List Str) (row : TestRow)
    (hrow : row ∈ (normalizeParsedData fileName metaRecord testRecords ws).tests) :
    row.isNumericValue = row.value.isSome ∧
    row.hasAnyLimit = (row.lowerLimit.isSome || row.upperLimit.isSome) ∧
    row.inLimit = specInLimit row.value row.lowerLimit row.upperLimit := by
  rw [normalizeParsedData_tests] at hrow
  rcases List.mem_map.mp hrow with ⟨raw, -, rfl⟩
  exact ⟨rfl, rfl, computeInLimit_eq_spec _ _ _⟩

/-- Witness for C2 at a concrete assembler input. -/
theorem claim2_witness :
    (mkTestRow [(("Value").data, ("5").data)]).isNumericValue =
      (mkTestRow [(("Value").data, ("5").data)]).value.isSome ∧
    (mkTestRow [(("Value").data, ("5").data)]).hasAnyLimit =
      ((mkTestRow [(("Value").data, ("5").data)]).lowerLimit.isSome ||
       (mkTestRow [(("Value").data, ("5").data)]).upperLimit.isSome) ∧
    (mkTestRow [(("Value").data, ("5").data)]).inLimit =
      specInLimit (mkTestRow [(("Value").data, ("5").data)]).value
        (mkTestRow [(("Value").data, ("5").data)]).lowerLimit
        (mkTestRow [(("Value").data, ("5").data)]).upperLimit :=
  claim2_testrow_invariants (("f").data) none [[(("Value").data, ("5").data)]] []
    (mkTestRow [(("Value").data, ("5").data)])
    (by
      rw [normalizeParsedData_tests]
      rw [show (([[(("Value").data, ("5").data)]].map sanitizeRawRecord).filter
            hasNonemptyValue) = [[(("Value").data, ("5").data)]] from by decide]
      exact List.mem_singleton.mpr rfl)

/-- Claim C3: for every file name and input text, `parseCsvText` is a
total function (the Lean rendering of "terminates and never throws") and
its result always carries the `meta`, `tests` and `warnings` fields. -/
theorem claim3_parse_total (fileName text : Str) :
    ∃ meta tests warnings, parseCsvText fileName text = ParsedCsvFile.mk meta tests warnings :=
  ⟨_, _, _, rfl⟩

/-- Claim C4: when line `i` is the first line that is blank after
trimming and followed by a later non-blank line, the splitter selects it
as the separator, takes lines `[0..i)` as the metadata lines and all
lines after `i`, with blank lines removed, as the test lines. -/
theorem claim4_separator_split (text : Str) (i : Nat)
    (hsep : isSeparatorAt (linesOf text) i)
    (hmin : ∀ k, k < i → ¬ isSeparatorAt (linesOf text) k) :
    findSepIdx (linesOf text) = some i ∧
    metaLinesFrom (linesOf text) = (linesOf text).take i ∧
    testLinesFrom (linesOf text) =
      ((linesOf text).drop (i + 1)).filter (fun l => !(isBlank l)) := by
  have h := findSepIdx_eq_some (linesOf text) i hsep hmin
  exact ⟨h, by simp [metaLinesFrom, h], by simp [testLinesFrom, h]⟩

/-- Witness for C4 at a concrete input with the separator at index 1. -/
theorem claim4_witness :
    findSepIdx (linesOf (("A\n\nB").data)) = some 1 ∧
    metaLinesFrom (linesOf (("A\n\nB").data)) = (linesOf (("A\n\nB").data)).take 1 ∧
    testLinesFrom (linesOf (("A\n\nB").data)) =
      ((linesOf (("A\n\nB").data)).drop (1 + 1)).filter (fun l => !(isBlank l)) :=
  claim4_separator_split (("A\n\nB").data) 1 (by decide) (by decide)

/-- Claim C5: when no line qualifies as a separator, the splitter emits
exactly the fallback warning, takes line 0 and line 1 (missing lines
becoming empty strings) as the metadata lines and all lines from index 2
onward as the test lines; and the resulting `tests` sequence is
non-empty whenever the test section yields at least one non-blank
record. -/
theorem claim5_fallback (fileName text : Str)
    (hnone : ∀ i, i < (linesOf text).length → ¬ isSeparatorAt (linesOf text) i) :
    (splitMetaAndTests fileName text).warnings = [fallbackWarning fileName] ∧
    metaLinesFrom (linesOf text) = [(linesOf text).getD 0 [], (linesOf text).getD 1 []] ∧
    testLinesFrom (linesOf text) = (linesOf text).drop 2 ∧
    (((parseSemicolonRecords (splitMetaAndTests fileName text).testsSectionText).map
        sanitizeRawRecord).filter hasNonemptyValue ≠ [] →
      (parseCsvText fileName text).tests ≠ []) := by
  have h := findSepIdx_eq_none (linesOf text) hnone
  have hmeta : metaLinesFrom (linesOf text) =
      [(linesOf text).getD 0 [], (linesOf text).getD 1 []] := by
    simp [metaLinesFrom, h]
  have htest : testLinesFrom (linesOf text) = (linesOf text).drop 2 := by
    simp [testLinesFrom, h]
  refine ⟨?_, hmeta, htest, ?_⟩
  · simp [splitMetaAndTests, splitFromLines, h, hmeta]
  · intro hne
    have htests : (parseCsvText fileName text).tests =
        (((parseSemicolonRecords (splitMetaAndTests fileName text).testsSectionText).map
          sanitizeRawRecord).filter hasNonemptyValue).map mkTestRow := by
      simp only [parseCsvText, parseFromLines, splitMetaAndTests]
      rw [normalizeParsedData_tests]
    rw [htests]
    intro hEmpty
    exact hne (List.map_eq_nil_iff.mp hEmpty)

/-- Witness for C5 at a concrete separator-free input with data rows. -/
theorem claim5_witness :
    (splitMetaAndTests (("f").data) (("M\nV\nH1;H2\n1;2").data)).warnings =
      [fallbackWarning (("f").data)] ∧
    (parseCsvText (("f").data) (("M\nV\nH1;H2\n1;2").data)).tests ≠ [] :=
  ⟨(claim5_fallback (("f").data) (("M\nV\nH1;H2\n1;2").data) (by decide)).1,
   (claim5_fallback (("f").data) (("M\nV\nH1;H2\n1;2").data) (by decide)).2.2.2 (by decide)⟩

/-- Claim C8: a text beginning with the byte-order marker parses
exactly as the same text with that single leading character removed
(hence `meta.serialNumber` and every other field are unaffected); and
normalization removes only the position-0 byte-order marker: with no
leading marker the count of markers is preserved, with one exactly one
is removed. -/
theorem claim8_bom_invariance :
    (∀ fileName text : Str, startsWithBom text = true →
      parseCsvText fileName text = parseCsvText fileName text.tail) ∧
    (∀ text : Str, startsWithBom text = false →
      bomCount (normalizeInput text) = bomCount text) ∧
    (∀ text : Str, startsWithBom text = true →
      bomCount (normalizeInput text) + 1 = bomCount text) := by
  refine ⟨?_, ?_, ?_⟩
  · intro f t ht
    rcases t with _ | ⟨c, u⟩
    · cases ht
    · have hc : c = bomChar := by simpa [startsWithBom] using ht
      subst hc
      show parseCsvText f (bomChar :: u) = parseCsvText f u
      unfold parseCsvText linesOf normalizeInput
      rw [if_pos (show startsWithBom (bomChar :: u) = true from by simp [startsWithBom])]
      simp only [List.tail_cons]
      cases hu : startsWithBom u with
      | false => rw [if_neg (by simp [hu])]
      | true =>
        rcases u with _ | ⟨c2, w⟩
        · cases hu
        · have hc2 : c2 = bomChar := by simpa [startsWithBom] using hu
          subst hc2
          rw [if_pos (rfl : true = true)]
          simp only [List.tail_cons]
          rw [replaceCR_bom_cons]
          obtain ⟨h0, t0, hsp⟩ : ∃ h0 t0, splitOnChar '\n' (replaceCR w) = h0 :: t0 := by
            rcases hr : splitOnChar '\n' (replaceCR w) with _ | ⟨a, b⟩
            · exact absurd hr (splitOnChar_ne_nil '\n' (replaceCR w))
            · exact ⟨a, b, rfl⟩
          rw [splitOnChar_cons_ne '\n' bomChar (by decide) (replaceCR w), hsp]
          simp only [List.headD_cons, List.tail_cons]
          exact parseFromLines_bom f h0 t0
  · intro t ht
    unfold normalizeInput bomCount
    rw [if_neg (by simp [ht])]
    exact replaceCR_count_bom t
  · intro t ht
    rcases t with _ | ⟨c, u⟩
    · cases ht
    · have hc : c = bomChar := by simpa [startsWithBom] using ht
      subst hc
      unfold normalizeInput bomCount
      rw [if_pos (show startsWithBom (bomChar :: u) = true from by simp [startsWithBom])]
      simp only [List.tail_cons]
      rw [replaceCR_count_bom u]
      simp [List.count_cons_self]

/-- Witness for C8 at a concrete byte-order-marked input. -/
theorem claim8_witness :
    parseCsvText (("f").data) (bomChar :: (("A").data)) = parseCsvText (("f").data) (("A").data) :=
  claim8_bom_invariance.1 (("f").data) (bomChar :: (("A").data)) (by decide)

/-- Counterexample to C7 as stated: on input `"0x10"` the source's
`Number`-based coercion yields 16, while a base-10-only parse, as the
claim words it, would yield `null`. -/
theorem claim7_counterexample :
    toNumberOrNull (some (("0x10").data)) ≠ decimalNumberOrNull (some (("0x10").data)) := by
  decide

/-- Claim C7 (amended): `toNumberOrNull` returns `null` on absent or
blank input and otherwise parses the trimmed input per JavaScript
`Number` semantics — which honours base-10 decimal notation (optional
sign, decimal point, exponent) but additionally accepts `0x`/`0o`/`0b`
radix integer literals, while `Infinity` parses as non-finite — and
returns the parsed value only if finite, else `null`; it never throws
(it is a total function). -/
theorem claim7_amended :
    toNumberOrNull none = none ∧
    (∀ s : Str, (jsTrim s).isEmpty = true → toNumberOrNull (some s) = none) ∧
    (∀ (s : Str) (q : ℚ), decimalNumberOrNull (some s) = some q →
      toNumberOrNull (some s) = some q) ∧
    (∀ ds : Str, ds ≠ [] → ds.all (isRadixDigit 16) = true →
      jsNumberFinite ('0' :: 'x' :: ds) = some ((radixVal 16 ds : Nat) : ℚ)) ∧
    toNumberOrNull (some (("Infinity").data)) = none := by
  refine ⟨rfl, ?_, ?_, ?_, by decide⟩
  · intro s hb
    simp only [toNumberOrNull]
    rw [if_pos hb]
  · intro s q h
    simp only [decimalNumberOrNull] at h
    simp only [toNumberOrNull]
    by_cases hb : (jsTrim s).isEmpty
    · rw [if_pos hb] at h; cases h
    · rw [if_neg hb] at h ⊢
      exact jsNumberFinite_of_decOnly _ q h
  · intro ds h1 h2
    simp only [jsNumberFinite, if_true]
    rw [if_pos (by decide), ratOfRadix, if_pos ⟨h1, h2⟩]

/-- Witness for the amended C7: the hexadecimal literal `0x10`. -/
theorem claim7_witness :
    jsNumberFinite ('0' :: 'x' :: ['1', '0']) = some ((radixVal 16 ['1', '0'] : Nat) : ℚ) :=
  claim7_amended.2.2.2.1 ['1', '0'] (by decide) (by decide)

/-- Counterexample to C6 as stated: on an input whose metadata section
is empty (line 0 is already the separator), `metaSectionText` is a
single empty line, not two lines. -/
theorem claim6_counterexample :
    countLines ((splitMetaAndTests (("f").data) (("\nX").data)).metaSectionText) ≠ 2 := by
  decide

/-- Claim C6 (amended): the metadata section text is the first at most
two metadata lines, newline-joined; it has exactly two lines whenever
the metadata section has at least two lines (in particular always under
the positional fallback), and fewer otherwise. -/
theorem claim6_amended (fileName text : Str)
    (h2 : 2 ≤ (metaLinesFrom (linesOf text)).length) :
    countLines ((splitMetaAndTests fileName text).metaSectionText) = 2 := by
  rcases hm : metaLinesFrom (linesOf text) with _ | ⟨a, _ | ⟨b, rest⟩⟩
  · rw [hm] at h2; simp at h2
  · rw [hm] at h2; simp at h2
  · have ha : '\n' ∉ a :=
      mem_metaLines_no_newline text a (by rw [hm]; exact List.mem_cons_self _ _)
    have hb : '\n' ∉ b :=
      mem_metaLines_no_newline text b
        (by rw [hm]; exact List.mem_cons_of_mem a (List.mem_cons_self _ _))
    have hsec : (splitMetaAndTests fileName text).metaSectionText = joinLines [a, b] := by
      simp [splitMetaAndTests, splitFromLines, hm]
    rw [hsec]
    show countLines (a ++ '\n' :: b) = 2
    unfold countLines
    rw [splitOnChar_append_cons '\n' b a ha, splitOnChar_eq_single '\n' b hb]
    rfl

/-- Witness for the amended C6 at an input with a two-line metadata
section. -/
theorem claim6_witness :
    countLines ((splitMetaAndTests (("f").data) (("A\nB\n\nC").data)).metaSectionText) = 2 :=
  claim6_amended (("f").data) (("A\nB\n\nC").data) (by decide)

/-- Claim C9: the assembler's warnings are exactly the initial warnings
followed by one `rowWarning` (at the record's filtered position, offset
by the header row) per record with `PassFail=Fail` and `Status=Skipped`,
in row order and for no other record; and the assembled rows are
`mkTestRow` of the sanitized records independently of that check. -/
theorem claim9_fail_skipped_warning (fileName : Str) (metaRecord : Option (List (Str × Str)))
    (testRecords : List (List (Str × Str))) (ws : List Str) :
    (normalizeParsedData fileName metaRecord testRecords ws).tests =
      ((testRecords.map sanitizeRawRecord).filter hasNonemptyValue).map mkTestRow ∧
    (normalizeParsedData fileName metaRecord testRecords ws).warnings =
      ws ++ (if testRecords.isEmpty then [emptyTestsWarning fileName]
             else rowWarningsFrom fileName
               ((testRecords.map sanitizeRawRecord).filter hasNonemptyValue)) :=
  ⟨normalizeParsedData_tests fileName metaRecord testRecords ws,
   normalizeParsedData_warnings fileName metaRecord testRecords ws⟩

end CsvViewer
